import Mathlib

/-!
Shallow embedding of the conversation-trimming core of `ai-chat-worker`
(`src/utils/openai.ts`): the token estimator `estimateTokens`, the limit
check `checkTokenLimit`, and the history optimiser `optimizeMessages`.

Strings are modelled as `List Char`; JavaScript's UTF-16 `String.length`
is modelled by `jsLength` (astral characters count as two code units) and
the regex `/[一-鿿]/g` match count by `cjkCount` (surrogate code
units never fall in that range, so counting scalar values is exact).
`Math.ceil(chinese / 1.5 + other / 4)` and `limit * 0.8` are computed in
`ℚ`; for every representable input size the IEEE-double computation in
the source agrees with the exact rational one, because the fractional
parts that occur are bounded away from integers by at least 1/12.

The `while` loop of `optimizeMessages` is not total: an iteration whose
scan (indices 1 .. length-2) finds only `system` roles removes nothing,
and if more than two messages remain the loop state repeats forever.
`optimizeGo` therefore returns `Option`: `some r` exactly when the
JavaScript loop terminates with result `r`, `none` exactly when it
diverges (a no-progress iteration with more than two messages repeats
the identical state, so divergence is detected after one step).
-/

inductive Role where
  | system
  | user
  | assistant
deriving DecidableEq

structure Message where
  role : Role
  content : List Char
deriving DecidableEq

/-- `m.role === 'system'` as a Boolean, used to state preservation of
system messages. -/
def isSystem (m : Message) : Bool := decide (m.role = Role.system)

/-- One character matching the regex `/[一-鿿]/`. -/
def isCJK (c : Char) : Bool := decide (0x4e00 ≤ c.toNat ∧ c.toNat ≤ 0x9fff)

/-- Number of UTF-16 code units a character contributes to the JavaScript
`String.length`. -/
def jsUnits (c : Char) : ℕ := if c.toNat < 0x10000 then 1 else 2

/-- `(text.match(/[一-鿿]/g) || []).length`. -/
def cjkCount (text : List Char) : ℕ := (text.filter isCJK).length

/-- JavaScript `text.length` (UTF-16 code units). -/
def jsLength (text : List Char) : ℕ := (text.map jsUnits).sum

/-- `estimateTokens` from `src/utils/openai.ts`:
`Math.ceil(chineseChars / 1.5 + otherChars / 4)` where
`chineseChars = (text.match(/[一-鿿]/g) || []).length` and
`otherChars = text.length - chineseChars`. -/
def estimateTokens (text : List Char) : ℕ :=
  ⌈(cjkCount text : ℚ) / 1.5 + ((jsLength text - cjkCount text : ℕ) : ℚ) / 4⌉₊

/-- The static `tokenLimits` record inside `checkTokenLimit`. -/
def tokenLimits : List (String × ℕ) :=
  [("gpt-3.5-turbo", 4096),
   ("gpt-3.5-turbo-16k", 16384),
   ("gpt-4", 8192),
   ("gpt-4-32k", 32768),
   ("gpt-4-turbo-preview", 128000),
   ("gpt-4o", 128000),
   ("gpt-4o-mini", 128000)]

/-- `checkTokenLimit` from `src/utils/openai.ts`: join all message
contents, estimate tokens, look the model up in the table
(`tokenLimits[model] || 4096`; every table value is nonzero so `||` only
replaces a missing key) and return `estimatedTokens < limit * 0.8`. -/
def checkTokenLimit (messages : List Message) (model : String) : Bool :=
  decide ((estimateTokens ((messages.map Message.content).join) : ℚ)
    < (((tokenLimits.lookup model).getD 4096 : ℕ) : ℚ) * 0.8)

/-- The `for` scan inside the trimming loop, acting on the tail of the
conversation: `for (let i = 1; i < len - 1; i++) if (role !== 'system')
{ splice(i, 1); break }`.  On the tail this removes the first non-system
element that is not the tail's last element; if all eligible elements are
`system` it returns the list unchanged. -/
def removeEarliestAux : List Message → List Message
  | [] => []
  | [x] => [x]
  | x :: y :: rest =>
      if x.role ≠ Role.system then y :: rest
      else x :: removeEarliestAux (y :: rest)

/-- One iteration body of the trimming loop of `optimizeMessages`
(the splice; index 0 is never scanned). -/
def removeEarliestNonSystem : List Message → List Message
  | [] => []
  | h :: t => h :: removeEarliestAux t

/-- The `while` loop of `optimizeMessages`.  `some r`: the JavaScript
loop terminates and returns `r`.  `none`: an iteration removed nothing
while more than two messages remain, so the identical loop state recurs
forever (the source diverges). -/
def optimizeGo (model : String) (l : List Message) : Option (List Message) :=
  if checkTokenLimit l model = true ∨ l.length ≤ 1 then some l
  else if (removeEarliestNonSystem l).length ≤ 2 then
    some (removeEarliestNonSystem l)
  else if hlt : (removeEarliestNonSystem l).length < l.length then
    optimizeGo model (removeEarliestNonSystem l)
  else none
termination_by l.length
decreasing_by exact hlt

/-- `optimizeMessages` from `src/utils/openai.ts`. -/
def optimizeMessages (messages : List Message) (model : String) :
    Option (List Message) :=
  optimizeGo model messages

/-! ### Concrete conversations used as test inputs -/

def sysMsg : Message := ⟨Role.system, ['s']⟩

def userMsg : Message := ⟨Role.user, ['u']⟩

def sysEmpty : Message := ⟨Role.system, []⟩

def userEmpty : Message := ⟨Role.user, []⟩

/-- 13105 ASCII characters: estimated at 3277 tokens, the smallest count
that fails the 80%-of-4096 check. -/
def bigContent : List Char := List.replicate 13105 'a'

def bigUserMsg : Message := ⟨Role.user, bigContent⟩

/-! ### Arithmetic facts about the token estimator -/

lemma natCeil_div_twelve (a : ℕ) : ⌈(a : ℚ) / 12⌉₊ = (a + 11) / 12 := by
  rcases Nat.eq_zero_or_pos a with h | h
  · subst h; simp
  · have hq := Nat.div_add_mod (a + 11) 12
    have hr : (a + 11) % 12 < 12 := Nat.mod_lt _ (by norm_num)
    have hqpos : 0 < (a + 11) / 12 := Nat.div_pos (by omega) (by norm_num)
    rw [Nat.ceil_eq_iff (by omega)]
    constructor
    · rw [lt_div_iff (by norm_num : (0 : ℚ) < 12)]
      have hnat : ((a + 11) / 12 - 1) * 12 < a := by omega
      exact_mod_cast hnat
    · rw [div_le_iff (by norm_num : (0 : ℚ) < 12)]
      have hnat : a ≤ ((a + 11) / 12) * 12 := by omega
      exact_mod_cast hnat

lemma estimateTokens_eq (text : List Char) :
    estimateTokens text
      = (8 * cjkCount text + 3 * (jsLength text - cjkCount text) + 11) / 12 := by
  unfold estimateTokens
  have hcast : (cjkCount text : ℚ) / 1.5 + ((jsLength text - cjkCount text : ℕ) : ℚ) / 4
      = ((8 * cjkCount text + 3 * (jsLength text - cjkCount text) : ℕ) : ℚ) / 12 := by
    push_cast
    ring_nf
  rw [hcast, natCeil_div_twelve]

lemma cjkCount_append (s t : List Char) :
    cjkCount (s ++ t) = cjkCount s + cjkCount t := by
  simp [cjkCount, List.filter_append]

lemma jsLength_append (s t : List Char) :
    jsLength (s ++ t) = jsLength s + jsLength t := by
  simp [jsLength]

lemma one_le_jsUnits (c : Char) : 1 ≤ jsUnits c := by
  unfold jsUnits; split <;> norm_num

lemma cjkCount_le_jsLength (s : List Char) : cjkCount s ≤ jsLength s := by
  induction s with
  | nil => simp [cjkCount, jsLength]
  | cons c cs ih =>
      have h1 := one_le_jsUnits c
      by_cases hc : isCJK c = true
      · simp only [cjkCount, List.filter_cons, hc, if_true, List.length_cons,
          jsLength, List.map_cons, List.sum_cons] at *
        omega
      · simp only [Bool.not_eq_true] at hc
        simp only [cjkCount, List.filter_cons, hc, Bool.false_eq_true, if_false,
          jsLength, List.map_cons, List.sum_cons] at *
        omega

lemma estimateTokens_eq2 (text : List Char) :
    estimateTokens text = (5 * cjkCount text + 3 * jsLength text + 11) / 12 := by
  rw [estimateTokens_eq]
  have := cjkCount_le_jsLength text
  congr 1
  omega

lemma checkTokenLimit_iff (messages : List Message) (model : String) :
    checkTokenLimit messages model = true ↔
      5 * estimateTokens ((messages.map Message.content).join)
        < 4 * (tokenLimits.lookup model).getD 4096 := by
  unfold checkTokenLimit
  rw [decide_eq_true_eq]
  have h08 : (0.8 : ℚ) = 4 / 5 := by norm_num
  rw [h08]
  constructor
  · intro h
    have hq : ((5 * estimateTokens ((messages.map Message.content).join) : ℕ) : ℚ)
        < ((4 * (tokenLimits.lookup model).getD 4096 : ℕ) : ℚ) := by
      push_cast
      nlinarith
    exact_mod_cast hq
  · intro h
    have hq : ((5 * estimateTokens ((messages.map Message.content).join) : ℕ) : ℚ)
        < ((4 * (tokenLimits.lookup model).getD 4096 : ℕ) : ℚ) := by exact_mod_cast h
    push_cast at hq
    nlinarith

lemma cjkCount_replicate (n : ℕ) (c : Char) (h : isCJK c = false) :
    cjkCount (List.replicate n c) = 0 := by
  induction n with
  | zero => simp [cjkCount]
  | succ m ih =>
      simp only [cjkCount, List.replicate_succ, List.filter_cons, h,
        Bool.false_eq_true, if_false] at *
      exact ih

lemma jsLength_replicate (n : ℕ) (c : Char) (h : jsUnits c = 1) :
    jsLength (List.replicate n c) = n := by
  induction n with
  | zero => simp [jsLength]
  | succ m ih =>
      simp only [jsLength, List.replicate_succ, List.map_cons, List.sum_cons, h] at *
      omega

/-! ### Facts about one iteration of the trimming loop -/

lemma removeEarliestAux_sublist (t : List Message) :
    (removeEarliestAux t).Sublist t := by
  induction t with
  | nil => simp [removeEarliestAux]
  | cons x t ih =>
      cases t with
      | nil => simp [removeEarliestAux]
      | cons y rest =>
          by_cases hx : x.role = Role.system
          · simp only [removeEarliestAux, hx, ne_eq, not_true_eq_false, if_false]
            exact List.Sublist.cons₂ x ih
          · simp only [removeEarliestAux, ne_eq, hx, not_false_eq_true, if_true]
            exact List.sublist_cons_self x (y :: rest)

lemma removeEarliestAux_eq_or_length (t : List Message) :
    removeEarliestAux t = t ∨ (removeEarliestAux t).length + 1 = t.length := by
  induction t with
  | nil => left; rfl
  | cons x t ih =>
      cases t with
      | nil => left; rfl
      | cons y rest =>
          by_cases hx : x.role = Role.system
          · simp only [removeEarliestAux, hx, ne_eq, not_true_eq_false, if_false]
            rcases ih with h | h
            · left; rw [h]
            · right; simp only [List.length_cons] at h ⊢; omega
          · right
            simp only [removeEarliestAux, ne_eq, hx, not_false_eq_true, if_true,
              List.length_cons]

lemma removeEarliestAux_filter (t : List Message) :
    (removeEarliestAux t).filter isSystem = t.filter isSystem := by
  induction t with
  | nil => rfl
  | cons x t ih =>
      cases t with
      | nil => rfl
      | cons y rest =>
          by_cases hx : x.role = Role.system
          · simp only [removeEarliestAux, hx, ne_eq, not_true_eq_false, if_false,
              List.filter_cons, ih]
          · have hxs : isSystem x = false := by simp [isSystem, hx]
            simp only [removeEarliestAux, ne_eq, hx, not_false_eq_true, if_true,
              List.filter_cons, hxs, Bool.false_eq_true, if_false]

lemma removeEarliestAux_ne_nil (t : List Message) (h : t ≠ []) :
    removeEarliestAux t ≠ [] := by
  cases t with
  | nil => exact absurd rfl h
  | cons x t =>
      cases t with
      | nil => simp [removeEarliestAux]
      | cons y rest =>
          by_cases hx : x.role = Role.system <;>
            simp [removeEarliestAux, hx]

lemma removeEarliestAux_getLast? (t : List Message) :
    (removeEarliestAux t).getLast? = t.getLast? := by
  induction t with
  | nil => rfl
  | cons x t ih =>
      cases t with
      | nil => rfl
      | cons y rest =>
          by_cases hx : x.role = Role.system
          · simp only [removeEarliestAux, hx, ne_eq, not_true_eq_false, if_false]
            have hne : removeEarliestAux (y :: rest) ≠ [] :=
              removeEarliestAux_ne_nil _ (by simp)
            obtain ⟨z, zs, hz⟩ := List.exists_cons_of_ne_nil hne
            rw [hz, List.getLast?_cons_cons, ← hz, ih, List.getLast?_cons_cons]
          · simp only [removeEarliestAux, ne_eq, hx, not_false_eq_true, if_true,
              List.getLast?_cons_cons]

lemma removeEarliestNonSystem_sublist (l : List Message) :
    (removeEarliestNonSystem l).Sublist l := by
  cases l with
  | nil => simp [removeEarliestNonSystem]
  | cons h t =>
      simpa [removeEarliestNonSystem] using
        List.Sublist.cons₂ h (removeEarliestAux_sublist t)

lemma removeEarliestNonSystem_eq_or_length (l : List Message) :
    removeEarliestNonSystem l = l ∨
      (removeEarliestNonSystem l).length + 1 = l.length := by
  cases l with
  | nil => left; rfl
  | cons h t =>
      rcases removeEarliestAux_eq_or_length t with he | hl
      · left; simp [removeEarliestNonSystem, he]
      · right; simp only [removeEarliestNonSystem, List.length_cons]; omega

lemma removeEarliestNonSystem_filter (l : List Message) :
    (removeEarliestNonSystem l).filter isSystem = l.filter isSystem := by
  cases l with
  | nil => rfl
  | cons h t =>
      simp only [removeEarliestNonSystem, List.filter_cons,
        removeEarliestAux_filter t]

lemma removeEarliestNonSystem_getLast? (l : List Message) :
    (removeEarliestNonSystem l).getLast? = l.getLast? := by
  cases l with
  | nil => rfl
  | cons h t =>
      cases t with
      | nil => rfl
      | cons y rest =>
          have hne : removeEarliestAux (y :: rest) ≠ [] :=
            removeEarliestAux_ne_nil _ (by simp)
          obtain ⟨z, zs, hz⟩ := List.exists_cons_of_ne_nil hne
          simp only [removeEarliestNonSystem]
          rw [hz, List.getLast?_cons_cons, ← hz,
            removeEarliestAux_getLast? (y :: rest), List.getLast?_cons_cons]

lemma removeEarliestNonSystem_head? (l : List Message) :
    (removeEarliestNonSystem l).head? = l.head? := by
  cases l with
  | nil => rfl
  | cons h t => rfl

lemma removeEarliestNonSystem_pair (a b : Message) :
    removeEarliestNonSystem [a, b] = [a, b] := rfl

lemma length_le_removeEarliestNonSystem (l : List Message) :
    l.length ≤ (removeEarliestNonSystem l).length + 1 := by
  rcases removeEarliestNonSystem_eq_or_length l with h | h
  · rw [h]; omega
  · omega

/-! ### Facts about the whole trimming loop -/

lemma optimizeGo_of_guard (model : String) (l : List Message)
    (h : checkTokenLimit l model = true ∨ l.length ≤ 1) :
    optimizeGo model l = some l := by
  unfold optimizeGo
  rw [if_pos h]

lemma optimizeGo_some_spec (model : String) :
    ∀ (n : ℕ) (l r : List Message), l.length ≤ n →
      optimizeGo model l = some r →
      r.Sublist l ∧ r.filter isSystem = l.filter isSystem ∧
        r.getLast? = l.getLast? ∧ r.head? = l.head? ∧
        (2 ≤ l.length → 2 ≤ r.length) := by
  intro n
  induction n with
  | zero =>
      intro l r h0 hs
      have hl : l = [] := List.length_eq_zero.mp (Nat.le_zero.mp h0)
      subst hl
      rw [optimizeGo_of_guard model [] (Or.inr (by simp))] at hs
      cases hs
      exact ⟨List.Sublist.refl _, rfl, rfl, rfl, by simp⟩
  | succ m ih =>
      intro l r hlen hs
      by_cases hg : checkTokenLimit l model = true ∨ l.length ≤ 1
      · rw [optimizeGo_of_guard model l hg] at hs
        cases hs
        exact ⟨List.Sublist.refl _, rfl, rfl, rfl, fun h => h⟩
      · unfold optimizeGo at hs
        rw [if_neg hg] at hs
        have hlen2 : 2 ≤ l.length := by
          push_neg at hg
          omega
        by_cases h2 : (removeEarliestNonSystem l).length ≤ 2
        · rw [if_pos h2] at hs
          cases hs
          refine ⟨removeEarliestNonSystem_sublist l,
            removeEarliestNonSystem_filter l,
            removeEarliestNonSystem_getLast? l,
            removeEarliestNonSystem_head? l, fun _ => ?_⟩
          have hle := length_le_removeEarliestNonSystem l
          by_cases hl2 : l.length = 2
          · obtain ⟨a, b, hab⟩ := List.length_eq_two.mp hl2
            rw [hab, removeEarliestNonSystem_pair]
            simp
          · omega
        · rw [if_neg h2] at hs
          by_cases hlt : (removeEarliestNonSystem l).length < l.length
          · rw [dif_pos hlt] at hs
            obtain ⟨hsub, hfil, hlast, hhead, hlen'⟩ :=
              ih (removeEarliestNonSystem l) r (by omega) hs
            refine ⟨hsub.trans (removeEarliestNonSystem_sublist l),
              hfil.trans (removeEarliestNonSystem_filter l),
              hlast.trans (removeEarliestNonSystem_getLast? l),
              hhead.trans (removeEarliestNonSystem_head? l), fun _ => ?_⟩
            exact hlen' (by omega)
          · rw [dif_neg hlt] at hs
            cases hs

lemma optimizeMessages_some_spec (messages : List Message) (model : String)
    (r : List Message) (hs : optimizeMessages messages model = some r) :
    r.Sublist messages ∧ r.filter isSystem = messages.filter isSystem ∧
      r.getLast? = messages.getLast? ∧ r.head? = messages.head? ∧
      (2 ≤ messages.length → 2 ≤ r.length) :=
  optimizeGo_some_spec model messages.length messages r (le_refl _) hs

lemma optimizeGo_idem (model : String) :
    ∀ (n : ℕ) (l r : List Message), l.length ≤ n →
      optimizeGo model l = some r → optimizeGo model r = some r := by
  intro n
  induction n with
  | zero =>
      intro l r h0 hs
      have hl : l = [] := List.length_eq_zero.mp (Nat.le_zero.mp h0)
      subst hl
      rw [optimizeGo_of_guard model [] (Or.inr (by simp))] at hs
      cases hs
      exact optimizeGo_of_guard model [] (Or.inr (by simp))
  | succ m ih =>
      intro l r hlen hs
      by_cases hg : checkTokenLimit l model = true ∨ l.length ≤ 1
      · rw [optimizeGo_of_guard model l hg] at hs
        cases hs
        exact optimizeGo_of_guard model l hg
      · unfold optimizeGo at hs
        rw [if_neg hg] at hs
        by_cases h2 : (removeEarliestNonSystem l).length ≤ 2
        · rw [if_pos h2] at hs
          cases hs
          by_cases hg' : checkTokenLimit (removeEarliestNonSystem l) model = true ∨
              (removeEarliestNonSystem l).length ≤ 1
          · exact optimizeGo_of_guard model _ hg'
          · have hlen2 : (removeEarliestNonSystem l).length = 2 := by
              push_neg at hg'
              omega
            obtain ⟨a, b, hab⟩ := List.length_eq_two.mp hlen2
            unfold optimizeGo
            rw [if_neg hg', hab, removeEarliestNonSystem_pair,
              if_pos (by simp)]
        · rw [if_neg h2] at hs
          by_cases hlt : (removeEarliestNonSystem l).length < l.length
          · rw [dif_pos hlt] at hs
            exact ih (removeEarliestNonSystem l) r (by omega) hs
          · rw [dif_neg hlt] at hs
            cases hs

lemma optimizeGo_terminates (model : String) :
    ∀ (n : ℕ) (l : List Message), l.length ≤ n →
      (∀ m ∈ l.tail, m.role ≠ Role.system) →
      ∃ r, optimizeGo model l = some r := by
  intro n
  induction n with
  | zero =>
      intro l h0 _
      have hl : l = [] := List.length_eq_zero.mp (Nat.le_zero.mp h0)
      subst hl
      exact ⟨[], optimizeGo_of_guard model [] (Or.inr (by simp))⟩
  | succ m ih =>
      intro l hlen htail
      by_cases hg : checkTokenLimit l model = true ∨ l.length ≤ 1
      · exact ⟨l, optimizeGo_of_guard model l hg⟩
      · cases l with
        | nil => exact absurd (Or.inr (by simp)) hg
        | cons h t =>
          cases t with
          | nil => exact absurd (Or.inr (by simp)) hg
          | cons x rest =>
          cases rest with
          | nil =>
              refine ⟨[h, x], ?_⟩
              unfold optimizeGo
              rw [if_neg hg, removeEarliestNonSystem_pair, if_pos (by simp)]
          | cons y rest' =>
              have hx : x.role ≠ Role.system := htail x (by simp)
              have hrm : removeEarliestNonSystem (h :: x :: y :: rest')
                  = h :: y :: rest' := by
                simp [removeEarliestNonSystem, removeEarliestAux, hx]
              by_cases h2 : (removeEarliestNonSystem (h :: x :: y :: rest')).length ≤ 2
              · refine ⟨removeEarliestNonSystem (h :: x :: y :: rest'), ?_⟩
                unfold optimizeGo
                rw [if_neg hg, if_pos h2]
              · have hlt : (removeEarliestNonSystem (h :: x :: y :: rest')).length
                    < (h :: x :: y :: rest').length := by
                  rw [hrm]; simp
                have htail' : ∀ mm ∈ (h :: y :: rest').tail, mm.role ≠ Role.system := by
                  intro mm hmm
                  exact htail mm (by simp at hmm ⊢; tauto)
                have hlen' : (h :: y :: rest').length ≤ m := by
                  simp only [List.length_cons] at hlen hlt ⊢
                  omega
                obtain ⟨r, hr⟩ := ih (h :: y :: rest') hlen' htail'
                refine ⟨r, ?_⟩
                unfold optimizeGo
                rw [if_neg hg, if_neg h2, dif_pos hlt, hrm]
                exact hr

lemma removeEarliestAux_spec (t : List Message) :
    (∃ pre mid post, t = pre ++ mid :: post ∧ post ≠ [] ∧
        (∀ x ∈ pre, x.role = Role.system) ∧ mid.role ≠ Role.system ∧
        removeEarliestAux t = pre ++ post) ∨
      ((∀ x ∈ t.dropLast, x.role = Role.system) ∧ removeEarliestAux t = t) := by
  induction t with
  | nil => right; exact ⟨by simp, rfl⟩
  | cons x t ih =>
      cases t with
      | nil => right; exact ⟨by simp, rfl⟩
      | cons y rest =>
          by_cases hx : x.role = Role.system
          · rcases ih with ⟨pre, mid, post, hsplit, hpost, hpre, hmid, heq⟩ | ⟨hall, heq⟩
            · left
              refine ⟨x :: pre, mid, post, by rw [hsplit]; rfl, hpost, ?_, hmid, ?_⟩
              · intro z hz
                rcases List.mem_cons.mp hz with hz | hz
                · rw [hz]; exact hx
                · exact hpre z hz
              · simp only [removeEarliestAux, hx, ne_eq, not_true_eq_false, if_false,
                  heq, List.cons_append]
            · right
              constructor
              · intro z hz
                rw [List.dropLast_cons_of_ne_nil (by simp)] at hz
                rcases List.mem_cons.mp hz with hz | hz
                · rw [hz]; exact hx
                · exact hall z hz
              · simp only [removeEarliestAux, hx, ne_eq, not_true_eq_false, if_false, heq]
          · left
            exact ⟨[], x, y :: rest, rfl, by simp, by simp, hx,
              by simp [removeEarliestAux, hx]⟩

lemma cjkCount_bigContent : cjkCount bigContent = 0 :=
  cjkCount_replicate 13105 'a' (by decide)

lemma jsLength_bigContent : jsLength bigContent = 13105 :=
  jsLength_replicate 13105 'a' (by decide)

lemma estimateTokens_bigContent : estimateTokens bigContent = 3277 := by
  rw [estimateTokens_eq2, cjkCount_bigContent, jsLength_bigContent]

lemma checkTokenLimit_small_gpt4 :
    checkTokenLimit [sysMsg, userMsg] "gpt-4" = true := by
  rw [checkTokenLimit_iff]
  have hj : (([sysMsg, userMsg].map Message.content).join) = ['s', 'u'] := rfl
  rw [hj, estimateTokens_eq2]
  decide

lemma checkTokenLimit_small_gpt35 :
    checkTokenLimit [sysMsg, userMsg] "gpt-3.5-turbo" = true := by
  rw [checkTokenLimit_iff]
  have hj : (([sysMsg, userMsg].map Message.content).join) = ['s', 'u'] := rfl
  rw [hj, estimateTokens_eq2]
  decide

lemma checkTokenLimit_big3 :
    checkTokenLimit [sysMsg, bigUserMsg, userMsg] "gpt-3.5-turbo" = false := by
  have hest : estimateTokens (([sysMsg, bigUserMsg, userMsg].map Message.content).join)
      = 3277 := by
    have hj : ([sysMsg, bigUserMsg, userMsg].map Message.content).join
        = ['s'] ++ (bigContent ++ ['u']) := rfl
    rw [hj, estimateTokens_eq2, cjkCount_append, cjkCount_append,
      jsLength_append, jsLength_append, cjkCount_bigContent, jsLength_bigContent,
      show cjkCount ['s'] = 0 from by decide, show cjkCount ['u'] = 0 from by decide,
      show jsLength ['s'] = 1 from by decide, show jsLength ['u'] = 1 from by decide]
  have hn : ¬(checkTokenLimit [sysMsg, bigUserMsg, userMsg] "gpt-3.5-turbo" = true) := by
    rw [checkTokenLimit_iff, hest]
    decide
  simpa using hn

lemma checkTokenLimit_bad :
    checkTokenLimit [bigUserMsg, sysEmpty, userEmpty] "gpt-3.5-turbo" = false := by
  have hest : estimateTokens (([bigUserMsg, sysEmpty, userEmpty].map Message.content).join)
      = 3277 := by
    have hj : ([bigUserMsg, sysEmpty, userEmpty].map Message.content).join
        = bigContent ++ [] := rfl
    rw [hj, List.append_nil, estimateTokens_bigContent]
  have hn : ¬(checkTokenLimit [bigUserMsg, sysEmpty, userEmpty] "gpt-3.5-turbo" = true) := by
    rw [checkTokenLimit_iff, hest]
    decide
  simpa using hn

lemma optimizeMessages_big3 :
    optimizeMessages [sysMsg, bigUserMsg, userMsg] "gpt-3.5-turbo"
      = some [sysMsg, userMsg] := by
  unfold optimizeMessages optimizeGo
  have hg : ¬(checkTokenLimit [sysMsg, bigUserMsg, userMsg] "gpt-3.5-turbo" = true ∨
      ([sysMsg, bigUserMsg, userMsg] : List Message).length ≤ 1) := by
    rw [checkTokenLimit_big3]
    simp
  rw [if_neg hg]
  have hrm : removeEarliestNonSystem [sysMsg, bigUserMsg, userMsg]
      = [sysMsg, userMsg] := rfl
  rw [hrm, if_pos (by simp)]

lemma mem_of_getLast?_eq_some {l : List Message} {x : Message}
    (h : l.getLast? = some x) : x ∈ l := by
  have hx : x ∈ l.getLast? := Option.mem_def.mpr h
  obtain ⟨hne, hx⟩ := List.mem_getLast?_eq_getLast hx
  rw [hx]
  exact List.getLast_mem hne

/-! ### Claim theorems -/

/-- Claim C1: for a conversation over the limit, whenever the trimming
loop terminates its result is no longer than the input, still contains
every message whose role is `system`, and still contains the input's
last message. -/
theorem optimizeMessages_over_limit_retains
    (msgs : List Message) (model : String) (r : List Message)
    (hc : checkTokenLimit msgs model = false)
    (hs : optimizeMessages msgs model = some r) :
    r.length ≤ msgs.length ∧
      (∀ m ∈ msgs, m.role = Role.system → m ∈ r) ∧
      (∀ x, msgs.getLast? = some x → x ∈ r) := by
  obtain ⟨hsub, hfil, hlast, _, _⟩ := optimizeMessages_some_spec msgs model r hs
  refine ⟨hsub.length_le, ?_, ?_⟩
  · intro m hm hrole
    have hmem : m ∈ msgs.filter isSystem :=
      List.mem_filter.mpr ⟨hm, by simp [isSystem, hrole]⟩
    rw [← hfil] at hmem
    exact (List.mem_filter.mp hmem).1
  · intro x hx
    exact mem_of_getLast?_eq_some (by rw [hlast]; exact hx)

/-- Witness for C1 at a concrete over-limit conversation. -/
theorem optimizeMessages_over_limit_retains_witness :
    ([sysMsg, userMsg] : List Message).length
        ≤ ([sysMsg, bigUserMsg, userMsg] : List Message).length ∧
      (∀ m ∈ [sysMsg, bigUserMsg, userMsg], m.role = Role.system →
        m ∈ [sysMsg, userMsg]) ∧
      (∀ x, ([sysMsg, bigUserMsg, userMsg] : List Message).getLast? = some x →
        x ∈ [sysMsg, userMsg]) :=
  optimizeMessages_over_limit_retains [sysMsg, bigUserMsg, userMsg]
    "gpt-3.5-turbo" [sysMsg, userMsg] checkTokenLimit_big3 optimizeMessages_big3

/-- Claim C2 (amended): one iteration of the trimming loop removes at
most one message, namely the first message that is at index at least 1,
is not the last element, and has a role other than `system`; if every
such eligible position holds a `system` message, the iteration removes
nothing. -/
theorem removeEarliestNonSystem_spec (h : Message) (t : List Message) :
    (∃ pre mid post, t = pre ++ mid :: post ∧ post ≠ [] ∧
        (∀ x ∈ pre, x.role = Role.system) ∧ mid.role ≠ Role.system ∧
        removeEarliestNonSystem (h :: t) = h :: (pre ++ post)) ∨
      ((∀ x ∈ t.dropLast, x.role = Role.system) ∧
        removeEarliestNonSystem (h :: t) = h :: t) := by
  rcases removeEarliestAux_spec t with ⟨pre, mid, post, h1, h2, h3, h4, h5⟩ | ⟨h1, h2⟩
  · exact Or.inl ⟨pre, mid, post, h1, h2, h3, h4,
      by simp [removeEarliestNonSystem, h5]⟩
  · exact Or.inr ⟨h1, by simp [removeEarliestNonSystem, h2]⟩

/-- Witness for the amended C2 at a concrete conversation. -/
theorem removeEarliestNonSystem_spec_witness :
    (∃ pre mid post, ([userMsg, userMsg] : List Message) = pre ++ mid :: post ∧
        post ≠ [] ∧ (∀ x ∈ pre, x.role = Role.system) ∧ mid.role ≠ Role.system ∧
        removeEarliestNonSystem (sysMsg :: [userMsg, userMsg])
          = sysMsg :: (pre ++ post)) ∨
      ((∀ x ∈ ([userMsg, userMsg] : List Message).dropLast, x.role = Role.system) ∧
        removeEarliestNonSystem (sysMsg :: [userMsg, userMsg])
          = sysMsg :: [userMsg, userMsg]) :=
  removeEarliestNonSystem_spec sysMsg [userMsg, userMsg]

/-- Claim C2 counterexample: on this over-limit conversation the loop
body runs (the check fails and more than one message is present), a
non-system message sits at index 2 (which is at index at least 1), yet
the iteration removes nothing because the scan stops before the last
element. -/
theorem removeEarliestNonSystem_claim_counterexample :
    checkTokenLimit [bigUserMsg, sysEmpty, userEmpty] "gpt-3.5-turbo" = false ∧
      1 < ([bigUserMsg, sysEmpty, userEmpty] : List Message).length ∧
      userEmpty ∈ List.drop 1 [bigUserMsg, sysEmpty, userEmpty] ∧
      userEmpty.role ≠ Role.system ∧
      removeEarliestNonSystem [bigUserMsg, sysEmpty, userEmpty]
        = [bigUserMsg, sysEmpty, userEmpty] :=
  ⟨checkTokenLimit_bad, by decide, by decide, by decide, rfl⟩

/-- Claim C3 counterexample: on this over-limit three-message
conversation whose only eligible scan position holds a `system` message,
the `while` loop of `optimizeMessages` never terminates (`none` encodes
divergence of the source loop). -/
theorem optimizeMessages_diverges :
    optimizeMessages [bigUserMsg, sysEmpty, userEmpty] "gpt-3.5-turbo" = none := by
  unfold optimizeMessages optimizeGo
  have hg : ¬(checkTokenLimit [bigUserMsg, sysEmpty, userEmpty] "gpt-3.5-turbo" = true ∨
      ([bigUserMsg, sysEmpty, userEmpty] : List Message).length ≤ 1) := by
    rw [checkTokenLimit_bad]
    simp
  rw [if_neg hg]
  have hrm : removeEarliestNonSystem [bigUserMsg, sysEmpty, userEmpty]
      = [bigUserMsg, sysEmpty, userEmpty] := rfl
  rw [hrm, if_neg (by simp), dif_neg (by simp)]

/-- Claim C3 (amended): the trimming loop terminates (in at most one
iteration per message) on every conversation in which no message after
the first has role `system` — in particular on every conversation whose
only system message is the conventional first one. -/
theorem optimizeMessages_terminates_of_tail_nonsystem
    (msgs : List Message) (model : String)
    (h : ∀ m ∈ msgs.tail, m.role ≠ Role.system) :
    ∃ r, optimizeMessages msgs model = some r :=
  optimizeGo_terminates model msgs.length msgs le_rfl h

/-- Witness for the amended C3 at a concrete conversation. -/
theorem optimizeMessages_terminates_of_tail_nonsystem_witness :
    (∀ m ∈ ([sysMsg, userMsg] : List Message).tail, m.role ≠ Role.system) ∧
      ∃ r, optimizeMessages [sysMsg, userMsg] "gpt-4" = some r :=
  ⟨by decide, optimizeMessages_terminates_of_tail_nonsystem [sysMsg, userMsg]
    "gpt-4" (by decide)⟩

/-- Claim C4: a conversation that passes the limit check is returned
unchanged. -/
theorem optimizeMessages_under_limit_id (msgs : List Message) (model : String)
    (h : checkTokenLimit msgs model = true) :
    optimizeMessages msgs model = some msgs :=
  optimizeGo_of_guard model msgs (Or.inl h)

/-- Witness for C4 at a concrete under-limit conversation. -/
theorem optimizeMessages_under_limit_id_witness :
    optimizeMessages [sysMsg, userMsg] "gpt-4" = some [sysMsg, userMsg] :=
  optimizeMessages_under_limit_id [sysMsg, userMsg] "gpt-4" checkTokenLimit_small_gpt4

/-- Claim C5: the limit check returns true iff the estimate of the
joined contents is strictly below 80% of the model's ceiling from the
static table (equivalently, in integers, iff five times the estimate is
below four times the ceiling), and a model absent from the table uses
the default ceiling 4096. -/
theorem checkTokenLimit_spec (msgs : List Message) (model : String) :
    (checkTokenLimit msgs model = true ↔
      (estimateTokens ((msgs.map Message.content).join) : ℚ)
        < 80 / 100 * (((tokenLimits.lookup model).getD 4096 : ℕ) : ℚ)) ∧
    (checkTokenLimit msgs model = true ↔
      5 * estimateTokens ((msgs.map Message.content).join)
        < 4 * (tokenLimits.lookup model).getD 4096) ∧
    (tokenLimits.lookup model = none →
      (checkTokenLimit msgs model = true ↔
        5 * estimateTokens ((msgs.map Message.content).join) < 4 * 4096)) := by
  have key : ∀ e L : ℕ, ((e : ℚ) < 80 / 100 * (L : ℚ) ↔ 5 * e < 4 * L) := by
    intro e L
    constructor
    · intro h
      have hq : ((5 * e : ℕ) : ℚ) < ((4 * L : ℕ) : ℚ) := by push_cast; nlinarith
      exact_mod_cast hq
    · intro h
      have hq : ((5 * e : ℕ) : ℚ) < ((4 * L : ℕ) : ℚ) := by exact_mod_cast h
      push_cast at hq
      nlinarith
  refine ⟨(checkTokenLimit_iff msgs model).trans (key _ _).symm,
    checkTokenLimit_iff msgs model, fun hnone => ?_⟩
  rw [checkTokenLimit_iff, hnone]
  simp

/-- Witness for C5 at a concrete conversation and an unknown model. -/
theorem checkTokenLimit_spec_witness :
    (checkTokenLimit [userMsg] "no-such-model" = true ↔
      (estimateTokens (([userMsg].map Message.content).join) : ℚ)
        < 80 / 100 * (((tokenLimits.lookup "no-such-model").getD 4096 : ℕ) : ℚ)) ∧
    (checkTokenLimit [userMsg] "no-such-model" = true ↔
      5 * estimateTokens (([userMsg].map Message.content).join)
        < 4 * (tokenLimits.lookup "no-such-model").getD 4096) ∧
    (tokenLimits.lookup "no-such-model" = none →
      (checkTokenLimit [userMsg] "no-such-model" = true ↔
        5 * estimateTokens (([userMsg].map Message.content).join) < 4 * 4096)) :=
  checkTokenLimit_spec [userMsg] "no-such-model"

/-- Claim C6: whenever the trimming loop terminates, running it again on
its own output changes nothing. -/
theorem optimizeMessages_idempotent (msgs : List Message) (model : String)
    (r : List Message) (h : optimizeMessages msgs model = some r) :
    optimizeMessages r model = some r :=
  optimizeGo_idem model msgs.length msgs r le_rfl h

/-- Witness for C6 at a concrete conversation. -/
theorem optimizeMessages_idempotent_witness :
    optimizeMessages [] "gpt-4" = some [] :=
  optimizeMessages_idempotent [] "gpt-4" []
    (optimizeGo_of_guard "gpt-4" [] (Or.inr (by simp)))

/-- Claim C7: whenever the trimming loop terminates, the system messages
of the input are preserved exactly (same messages, same order), and an
input with at least two messages yields at least two messages. -/
theorem optimizeMessages_preserves_system (msgs : List Message) (model : String)
    (r : List Message) (h : optimizeMessages msgs model = some r) :
    r.filter isSystem = msgs.filter isSystem ∧
      (2 ≤ msgs.length → 2 ≤ r.length) := by
  obtain ⟨_, hfil, _, _, hlen⟩ := optimizeMessages_some_spec msgs model r h
  exact ⟨hfil, hlen⟩

/-- Witness for C7 at a concrete conversation. -/
theorem optimizeMessages_preserves_system_witness :
    ([sysMsg, userMsg] : List Message).filter isSystem
        = ([sysMsg, userMsg] : List Message).filter isSystem ∧
      (2 ≤ ([sysMsg, userMsg] : List Message).length →
        2 ≤ ([sysMsg, userMsg] : List Message).length) :=
  optimizeMessages_preserves_system [sysMsg, userMsg] "gpt-3.5-turbo"
    [sysMsg, userMsg]
    (optimizeGo_of_guard "gpt-3.5-turbo" [sysMsg, userMsg]
      (Or.inl checkTokenLimit_small_gpt35))

/-- Claim C8: the token estimate is exactly the ceiling of
`cjk / 1.5 + other / 4`, and the empty string estimates to zero (the
estimator is a total function by construction). -/
theorem estimateTokens_spec (text : List Char) :
    (estimateTokens text : ℤ)
        = ⌈(cjkCount text : ℚ) / 1.5 + ((jsLength text - cjkCount text : ℕ) : ℚ) / 4⌉ ∧
      estimateTokens [] = 0 := by
  constructor
  · unfold estimateTokens
    exact Int.natCast_ceil_eq_ceil (by positivity)
  · rw [estimateTokens_eq2]
    decide

/-- Witness for C8 at a concrete mixed-script string. -/
theorem estimateTokens_spec_witness :
    ((estimateTokens ['a', '中'] : ℤ)
        = ⌈(cjkCount ['a', '中'] : ℚ) / 1.5
            + ((jsLength ['a', '中'] - cjkCount ['a', '中'] : ℕ) : ℚ) / 4⌉) ∧
      estimateTokens [] = 0 :=
  estimateTokens_spec ['a', '中']

/-- Claim C9: appending characters to a string never decreases the token
estimate; monotonicity under extension holds for every script
composition. -/
theorem estimateTokens_mono_append (s t : List Char) :
    estimateTokens s ≤ estimateTokens (s ++ t) := by
  rw [estimateTokens_eq2, estimateTokens_eq2, cjkCount_append, jsLength_append]
  apply Nat.div_le_div_right
  omega

/-- Witness for C9 at concrete strings. -/
theorem estimateTokens_mono_append_witness :
    estimateTokens ['a'] ≤ estimateTokens (['a'] ++ ['b', 'c']) :=
  estimateTokens_mono_append ['a'] ['b', 'c']

/-- Claim C10: whenever the trimming loop terminates, its output is a
sublist of the input (messages are only deleted, never edited, reordered
or inserted), the first message is retained whatever its role, and an
input with at most one message is returned unchanged even when it is
over the limit. -/
theorem optimizeMessages_sublist_inv (msgs : List Message) (model : String)
    (r : List Message) (h : optimizeMessages msgs model = some r) :
    r.Sublist msgs ∧ r.head? = msgs.head? ∧ (msgs.length ≤ 1 → r = msgs) := by
  obtain ⟨hsub, _, _, hhead, _⟩ := optimizeMessages_some_spec msgs model r h
  refine ⟨hsub, hhead, fun hlen => ?_⟩
  have hguard := optimizeGo_of_guard model msgs (Or.inr hlen)
  unfold optimizeMessages at h
  rw [hguard] at h
  exact (Option.some.inj h).symm

/-- Witness for C10 at a one-message conversation that is over the
limit. -/
theorem optimizeMessages_sublist_inv_witness :
    ([bigUserMsg] : List Message).Sublist [bigUserMsg] ∧
      ([bigUserMsg] : List Message).head? = ([bigUserMsg] : List Message).head? ∧
      (([bigUserMsg] : List Message).length ≤ 1 →
        ([bigUserMsg] : List Message) = [bigUserMsg]) :=
  optimizeMessages_sublist_inv [bigUserMsg] "gpt-3.5-turbo" [bigUserMsg]
    (optimizeGo_of_guard "gpt-3.5-turbo" [bigUserMsg] (Or.inr (by simp)))
